import Mathlib

/-!
Verification of `src/www/Promise.js` (Promise v0.2.2), a fallback Promise
implementation.  The JavaScript source is shallowly embedded: each private
function of the `Promise` constructor (`envoy`, `enlighten`, `resolver`,
`rejector`, `chain`) becomes a pure Lean function on an explicit promise
state, `window.setImmediate` becomes emission of a task into an explicit
FIFO task queue, and a fueled interpreter executes tasks.  JavaScript
object identity of promises is modelled by indices (`PromiseId`) into the
world's promise list; the settlement functions `resolve`/`reject` stored
in a reaction's `link` are always the `resolver`/`rejector` of the
downstream promise created by `then`/`catch` (source lines 286-326), so a
link is modelled by the downstream promise's id.
-/

set_option autoImplicit false

namespace PromiseJS

/-- Identity of a Promise object (index into the world's promise list). -/
abbrev PromiseId := Nat

/-- JavaScript values as far as the library inspects them: `undef` is
`undefined`, `num`/`str`/`arr` are ordinary non-thenable values, `exn s`
is an error object (such as the `TypeError` thrown when calling `.then`
on a non-function), and `pref p` is a `Promise` instance (the only
thenable objects in the model, since `Promise.prototype.then` exists). -/
inductive Val where
  | undef : Val
  | num : Int → Val
  | str : String → Val
  | arr : List Val → Val
  | exn : String → Val
  | pref : PromiseId → Val

mutual

/-- Boolean equality on values (hand-written because `Val` nests
`List Val`). -/
def Val.beq : Val → Val → Bool
  | .undef, .undef => true
  | .num a, .num b => a == b
  | .str a, .str b => a == b
  | .exn a, .exn b => a == b
  | .pref a, .pref b => a == b
  | .arr a, .arr b => Val.beqList a b
  | _, _ => false

/-- Boolean equality on lists of values. -/
def Val.beqList : List Val → List Val → Bool
  | [], [] => true
  | a :: as, b :: bs => Val.beq a b && Val.beqList as bs
  | _, _ => false

end

mutual

theorem Val.eq_of_beq : ∀ a b : Val, Val.beq a b = true → a = b
  | .undef, b, h => by cases b <;> simp_all [Val.beq]
  | .num a, b, h => by cases b <;> simp_all [Val.beq]
  | .str a, b, h => by cases b <;> simp_all [Val.beq]
  | .exn a, b, h => by cases b <;> simp_all [Val.beq]
  | .pref a, b, h => by cases b <;> simp_all [Val.beq]
  | .arr a, .arr b, h => congrArg Val.arr (Val.eqList_of_beq a b h)
  | .arr a, .undef, h => by simp [Val.beq] at h
  | .arr a, .num b, h => by simp [Val.beq] at h
  | .arr a, .str b, h => by simp [Val.beq] at h
  | .arr a, .exn b, h => by simp [Val.beq] at h
  | .arr a, .pref b, h => by simp [Val.beq] at h

theorem Val.eqList_of_beq : ∀ a b : List Val, Val.beqList a b = true → a = b
  | [], [], _ => rfl
  | [], _ :: _, h => by simp [Val.beqList] at h
  | _ :: _, [], h => by simp [Val.beqList] at h
  | a :: as, b :: bs, h => by
    have hab := (Bool.and_eq_true _ _).mp h
    rw [Val.eq_of_beq a b hab.1, Val.eqList_of_beq as bs hab.2]

end

mutual

theorem Val.beq_refl : ∀ a : Val, Val.beq a a = true
  | .undef => rfl
  | .num a => by simp [Val.beq]
  | .str a => by simp [Val.beq]
  | .exn a => by simp [Val.beq]
  | .pref a => by simp [Val.beq]
  | .arr a => Val.beqList_refl a

theorem Val.beqList_refl : ∀ a : List Val, Val.beqList a a = true
  | [] => rfl
  | a :: as => by
    rw [Val.beqList, Val.beq_refl a, Val.beqList_refl as]
    rfl

end

instance : DecidableEq Val := fun a b =>
  decidable_of_iff (Val.beq a b = true)
    ⟨Val.eq_of_beq a b, fun h => h ▸ Val.beq_refl a⟩

/-- JavaScript truthiness for the values of the model (used by the
`value &&` guards at source lines 186 and 228). -/
def isTruthy : Val → Bool
  | .undef => false
  | .num n => n ≠ 0
  | .str s => s ≠ ""
  | .arr _ => true
  | .exn _ => true
  | .pref _ => true

/-- The check `typeof value.then === "function"`: in the model only
`Promise` instances carry a callable `then`. -/
def isThenable : Val → Bool
  | .pref _ => true
  | _ => false

/-- Whether a value is a `Promise` instance (`fate instanceof Promise`,
source line 61). -/
def Val.isPref : Val → Bool
  | .pref _ => true
  | _ => false

/-- The two settlement operations; `resolve`/`reject` are the operation
name strings used at source lines 102, 117, 158 and 161. -/
inductive Op where
  | resolve : Op
  | reject : Op
deriving DecidableEq, Repr

/-- The promise `status` field: `PENDING`, `RESOLVED`, `REJECTED`
(source lines 14-24). -/
inductive Status where
  | pending : Status
  | resolved : Status
  | rejected : Status
deriving DecidableEq, Repr

/-- A handler stored in a reaction: either a user handler (an arbitrary
pure function that returns normally with `.ok` or throws with `.error`),
or one of the library's own closures used as handlers: the
`resolver`/`rejector` of a promise passed to `value.then` by
`Promise.resolve` (source line 187), and the two closures of
`Promise.all` (source lines 233-244) that share a mutable cell. -/
inductive HandlerFn where
  | pureFn : (Val → Except Val Val) → HandlerFn
  | settleFn : Op → PromiseId → HandlerFn
  | allRes : Nat → Nat → HandlerFn
  | allRej : Nat → HandlerFn

/-- The `args` record built by `then`/`catch` (source lines 290-298):
`resolve`/`reject` are the optional handlers (`null` becomes `none`),
and `link` stands for the linkage object whose `resolve`/`reject` are
the settlement functions of the downstream promise `link.promise`. -/
structure Reaction where
  onResolve : Option HandlerFn
  onReject : Option HandlerFn
  link : PromiseId

/-- The handler of a reaction for a given operation: `args[operation]`
(source line 63). -/
def Reaction.handler (args : Reaction) : Op → Option HandlerFn
  | .resolve => args.onResolve
  | .reject => args.onReject

/-- The per-promise state closed over by the constructor (source lines
37, 41-43): `fate` starts `undefined`, `queue` empty, `status` PENDING. -/
structure PromiseState where
  status : Status := .pending
  fate : Val := .undef
  queue : List Reaction := []

/-- An effect of the settlement core: either a synchronous forwarding of
the reaction to a nested promise (`fate.chain(args)`, source line 62), or
a task submitted to `window.setImmediate` — the handler-invoking closure
of source lines 64-70 (which captures `args`, hence both the handler and
the link), or the direct pass-through `setImmediate(args.link[operation],
fate)` of source line 72. -/
inductive Eff where
  | forward : PromiseId → Reaction → Eff
  | schedInvoke : HandlerFn → Val → PromiseId → Eff
  | schedSettle : Op → PromiseId → Val → Eff

/-- The downstream link a dispatch effect targets; each of `envoy`'s
three branches mentions exactly one reaction, and this projection
recovers its `link` (for `forward` the whole `args` is forwarded, for
the two scheduled tasks the closure captures `args.link`). -/
def Eff.link : Eff → PromiseId
  | .forward _ args => args.link
  | .schedInvoke _ _ l => l
  | .schedSettle _ l _ => l

/-- `envoy(args, operation)` (source lines 60-74): if the fate is itself
a Promise, forward the reaction to it; else if a handler for the settled
operation exists, schedule its invocation; else schedule the direct
pass-through of the fate to the downstream's same-operation settlement
function. -/
def envoy (fate : Val) (args : Reaction) (operation : Op) : Eff :=
  match fate with
  | .pref p => .forward p args
  | _ =>
    match args.handler operation with
    | some h => .schedInvoke h fate args.link
    | none => .schedSettle operation args.link fate

/-- `enlighten(operation)` (source lines 84-89): dispatch every queued
reaction, in queue order, through `envoy`. -/
def enlighten (st : PromiseState) (operation : Op) : List Eff :=
  st.queue.map (fun args => envoy st.fate args operation)

/-- `resolver(value)` (source lines 98-104): if still pending, store the
value as the fate, flip the status to RESOLVED, and dispatch the queue
under operation `resolve`; otherwise do nothing.  The queue itself is
not cleared by the source, and neither is it here. -/
def resolver (st : PromiseState) (value : Val) : PromiseState × List Eff :=
  if st.status = .pending then
    let st' : PromiseState := { st with fate := value, status := .resolved }
    (st', enlighten st' .resolve)
  else (st, [])

/-- `rejector(reason)` (source lines 113-119): the rejecting twin of
`resolver`. -/
def rejector (st : PromiseState) (reason : Val) : PromiseState × List Eff :=
  if st.status = .pending then
    let st' : PromiseState := { st with fate := reason, status := .rejected }
    (st', enlighten st' .reject)
  else (st, [])

/-- The dispatching switch of `chain` (source lines 153-163): queue the
reaction while pending, otherwise dispatch it at once through `envoy`
under the operation matching the status.  The `TypeError` guards of
lines 135-152 cannot fire on reactions built by `then`/`catch` (they
always pass `null`-or-function handlers and a well-formed link), and
well-formedness is enforced by the `Reaction` type here. -/
def chain (st : PromiseState) (args : Reaction) : PromiseState × Option Eff :=
  match st.status with
  | .pending => ({ st with queue := st.queue ++ [args] }, none)
  | .resolved => (st, some (envoy st.fate args .resolve))
  | .rejected => (st, some (envoy st.fate args .reject))

/-- One externally triggerable operation on a single promise's state:
a call to one of its two settlement functions, or an attachment of a
reaction through `chain`. -/
inductive PromOp where
  | settle : Op → Val → PromOp
  | attach : Reaction → PromOp

/-- Apply one operation to a promise state, collecting the emitted
effects. -/
def stepP (st : PromiseState) : PromOp → PromiseState × List Eff
  | .settle .resolve v => resolver st v
  | .settle .reject v => rejector st v
  | .attach args =>
    let (st', e) := chain st args
    (st', e.toList)

/-- Apply a sequence of operations, concatenating the emitted effects in
order. -/
def runP (st : PromiseState) : List PromOp → PromiseState × List Eff
  | [] => (st, [])
  | o :: os =>
    let (st', effs) := stepP st o
    let (st'', effs') := runP st' os
    (st'', effs ++ effs')

/-- Whether an operation is a settlement call. -/
def PromOp.isSettle : PromOp → Prop
  | .settle _ _ => True
  | .attach _ => False

/-- The reactions attached by a sequence of operations, in order. -/
def attachedOf (ops : List PromOp) : List Reaction :=
  ops.filterMap (fun o => match o with | .attach a => some a | _ => none)

/-- The mutable cell shared by the closures of one `Promise.all` call
(source lines 222-225): `results` is the JavaScript array written by
`results[index] = value` (a hole reads as `undefined`), `remaining` the
countdown (an integer, since the source decrements it without a floor),
`status` the flag cleared by the rejection closure, and `outer` the
promise whose `onResolved`/`onRejected` the closures call. -/
structure AllCell where
  results : List (Option Val) := []
  remaining : Int := 0
  status : Bool := true
  outer : PromiseId := 0

/-- A task in the `setImmediate` queue: the producer-running closure of
the constructor (source lines 165-171) specialised to the producer of
`then`/`catch` (runs `that.chain(args)`), of `Promise.resolve`, of
`Promise.reject` and of `Promise.all`; the handler-invoking closure of
`envoy` (source lines 64-70); and the direct pass-through submission of
source line 72. -/
inductive Task where
  | runChainT : PromiseId → Reaction → Task
  | invokeT : HandlerFn → Val → PromiseId → Task
  | settleT : Op → PromiseId → Val → Task
  | resolveProducerT : Val → PromiseId → Task
  | rejectProducerT : Val → PromiseId → Task
  | allProducerT : List Val → PromiseId → Task

/-- The whole mutable store: every promise's state, every `Promise.all`
cell, and the FIFO `setImmediate` task queue (the `setTimeout(cb, 0)`
fallback of source lines 330-344 preserves submission order too). -/
structure World where
  promises : List PromiseState := []
  cells : List AllCell := []
  tasks : List Task := []

/-- The state of promise `p` (a fresh pending state if out of range). -/
def World.get (w : World) (p : PromiseId) : PromiseState :=
  w.promises.getD p {}

/-- Replace the state of promise `p`. -/
def World.setP (w : World) (p : PromiseId) (st : PromiseState) : World :=
  { w with promises := w.promises.set p st }

/-- The cell of the `c`-th `Promise.all` call. -/
def World.getCell (w : World) (c : Nat) : AllCell :=
  w.cells.getD c {}

/-- Replace the cell of the `c`-th `Promise.all` call. -/
def World.setCell (w : World) (c : Nat) (cell : AllCell) : World :=
  { w with cells := w.cells.set c cell }

/-- Submit a task to `window.setImmediate` (appended, FIFO). -/
def World.sched (w : World) (t : Task) : World :=
  { w with tasks := w.tasks ++ [t] }

/-- JavaScript array write `results[index] = value` on an array whose
holes read as `undefined`. -/
def arraySet : List (Option Val) → Nat → Val → List (Option Val)
  | [], 0, v => [some v]
  | [], i + 1, v => none :: arraySet [] i v
  | _ :: rest, 0, v => some v :: rest
  | x :: rest, i + 1, v => x :: arraySet rest i v

/-- The body of the fulfillment closure of `Promise.all` (source lines
233-240) up to the call of `onResolved`: updates the cell and reports
the array to resolve the outer promise with, if `remaining` hit zero. -/
def allResCore (cell : AllCell) (index : Nat) (value : Val) : AllCell × Option Val :=
  if cell.status then
    let results := arraySet cell.results index value
    let remaining := cell.remaining - 1
    ({ cell with results := results, remaining := remaining },
      if remaining = 0 then some (.arr (results.map (fun r => r.getD .undef))) else none)
  else (cell, none)

/-- The body of the rejection closure of `Promise.all` (source lines
241-244) up to the call of `onRejected`: clears the `status` flag. -/
def allRejCore (cell : AllCell) : AllCell :=
  { cell with status := false }

/-- `Promise.prototype.then` (source lines 286-301): appends a fresh
pending downstream promise whose producer — scheduled by the
constructor at line 165 — will call `that.chain` with the `args` record
of lines 290-298; `link.resolve`/`link.reject` are the downstream's
`resolver`/`rejector`, so the link is the downstream's id.  Returns the
downstream promise.  Handlers arrive already coerced to
`null`-or-function (`Option HandlerFn`). -/
def thenCall (w : World) (src : PromiseId) (onRes onRej : Option HandlerFn) :
    World × PromiseId :=
  let p := w.promises.length
  ({ w with
      promises := w.promises ++ [{}],
      tasks := w.tasks ++ [.runChainT src { onResolve := onRes, onReject := onRej, link := p }] },
    p)

/-- `Promise.resolve` (source lines 184-192): a fresh promise whose
producer is scheduled. -/
def promiseResolveCall (w : World) (v : Val) : World × PromiseId :=
  let p := w.promises.length
  ({ w with promises := w.promises ++ [{}], tasks := w.tasks ++ [.resolveProducerT v p] }, p)

/-- `Promise.reject` (source lines 202-206): a fresh promise whose
producer is scheduled. -/
def promiseRejectCall (w : World) (r : Val) : World × PromiseId :=
  let p := w.promises.length
  ({ w with promises := w.promises ++ [{}], tasks := w.tasks ++ [.rejectProducerT r p] }, p)

/-- `Promise.all` (source lines 220-247): a fresh promise whose
producer is scheduled. -/
def promiseAllCall (w : World) (list : List Val) : World × PromiseId :=
  let p := w.promises.length
  ({ w with promises := w.promises ++ [{}], tasks := w.tasks ++ [.allProducerT list p] }, p)

/-- The `iterable.forEach` loop of `Promise.all` (source lines 226-245).
For each element: if it is truthy and has no callable `then` (the
inverted guard of line 228), the raw value is kept as `promise` and the
call `promise.then(...)` throws `TypeError: promise.then is not a
function`, aborting the loop with that exception (second component);
otherwise the element goes through `Promise.resolve` and the two cell
closures are attached to the result.  World mutations made before a
throw persist, as the thrown exception only aborts the rest of the
loop. -/
def allLoop (w : World) (c : Nat) : List Val → Nat → World × Option Val
  | [], _ => (w, none)
  | value :: rest, index =>
    if isTruthy value && !(isThenable value) then
      (w, some (.exn "promise.then is not a function"))
    else
      let (w, p) := promiseResolveCall w value
      let (w, _) := thenCall w p (some (.allRes c index)) (some (.allRej c))
      allLoop w c rest (index + 1)

mutual

/-- Perform one effect of the settlement core: forwarding runs
`fate.chain(args)` synchronously (source line 62) — which may in turn
dispatch through `envoy` on the nested promise — while the two
scheduling effects append their task to the `setImmediate` queue.  The
fuel bounds the depth of synchronous promise-to-promise forwarding
(unbounded in JavaScript, where a cycle of promise fates overflows the
stack); exhausted fuel leaves the world unchanged. -/
def applyEff : Nat → World → Eff → World
  | 0, w, _ => w
  | fuel + 1, w, .forward p args =>
    let (st, e) := chain (w.get p) args
    let w := w.setP p st
    match e with
    | some eff => applyEff fuel w eff
    | none => w
  | _ + 1, w, .schedInvoke h v link => w.sched (.invokeT h v link)
  | _ + 1, w, .schedSettle op link v => w.sched (.settleT op link v)

/-- Perform a list of effects in order. -/
def applyEffs : Nat → World → List Eff → World
  | 0, w, _ => w
  | _ + 1, w, [] => w
  | fuel + 1, w, e :: es => applyEffs fuel (applyEff fuel w e) es

/-- Call the `resolver` (operation `resolve`) or `rejector` (operation
`reject`) of promise `p` with value `v`, then perform the emitted
dispatch effects. -/
def worldSettle : Nat → World → Op → PromiseId → Val → World
  | 0, w, _, _, _ => w
  | fuel + 1, w, op, p, v =>
    let (st, effs) :=
      match op with
      | .resolve => resolver (w.get p) v
      | .reject => rejector (w.get p) v
    applyEffs fuel (w.setP p st) effs

/-- Invoke a handler with a value, returning the updated world and the
handler's normal return (`.ok`) or thrown exception (`.error`).  User
handlers are pure; the library closures used as handlers mutate the
world and return `undefined`. -/
def applyHandler : Nat → World → HandlerFn → Val → World × Except Val Val
  | 0, w, _, _ => (w, .ok .undef)
  | _ + 1, w, .pureFn f, v => (w, f v)
  | fuel + 1, w, .settleFn op target, v => (worldSettle fuel w op target v, .ok .undef)
  | fuel + 1, w, .allRes c i, v =>
    let cell := w.getCell c
    let (cell', res) := allResCore cell i v
    let w := w.setCell c cell'
    match res with
    | some rv => (worldSettle fuel w .resolve cell.outer rv, .ok .undef)
    | none => (w, .ok .undef)
  | fuel + 1, w, .allRej c, v =>
    let cell := w.getCell c
    let w := w.setCell c (allRejCore cell)
    (worldSettle fuel w .reject cell.outer v, .ok .undef)

/-- Pop and run the first task of the `setImmediate` queue.
`invokeT` is the closure of source lines 64-70: invoke the handler,
`link.resolve` its return value or `link.reject` what it threw.
`settleT` is the pass-through of line 72.  `runChainT` is the producer
of a `then`/`catch` promise: `that.chain(args)` (lines 289-299).
`resolveProducerT` is the producer of `Promise.resolve` (lines
185-191): adopt a truthy thenable through `value.then(onResolved,
onRejected)`, else resolve with the value.  `rejectProducerT` is the
producer of `Promise.reject` (lines 203-205).  `allProducerT` is the
producer of `Promise.all` (lines 221-246): allocate the cell, run the
`forEach` loop, and — through the constructor's `catch` at lines
168-170 — reject the outer promise with any exception the loop threw. -/
def runTask : Nat → World → World
  | 0, w => w
  | fuel + 1, w =>
    match w.tasks with
    | [] => w
    | t :: rest =>
      let w := { w with tasks := rest }
      match t with
      | .invokeT h v link =>
        let (w, r) := applyHandler fuel w h v
        match r with
        | .ok rv => worldSettle fuel w .resolve link rv
        | .error e => worldSettle fuel w .reject link e
      | .settleT op link v => worldSettle fuel w op link v
      | .runChainT src args =>
        let (st, e) := chain (w.get src) args
        let w := w.setP src st
        match e with
        | some eff => applyEff fuel w eff
        | none => w
      | .resolveProducerT v target =>
        if isTruthy v && isThenable v then
          match v with
          | .pref q =>
            (thenCall w q (some (.settleFn .resolve target)) (some (.settleFn .reject target))).1
          | _ => w
        else worldSettle fuel w .resolve target v
      | .rejectProducerT r target => worldSettle fuel w .reject target r
      | .allProducerT list target =>
        let c := w.cells.length
        let w := { w with
          cells := w.cells ++ [{ results := [], remaining := (list.length : Int),
                                 status := true, outer := target }] }
        match allLoop w c list 0 with
        | (w, none) => w
        | (w, some e) => worldSettle fuel w .reject target e

end

/-- Run `n` scheduler steps, each with the given fuel. -/
def runN : Nat → Nat → World → World
  | 0, _, w => w
  | n + 1, fuel, w => runN n fuel (runTask fuel w)

/-- The joint state touched by the closures of one `Promise.all` call:
the shared cell and the outer promise (whose `resolver`/`rejector` are
the `onResolved`/`onRejected` the closures call). -/
structure AllRun where
  cell : AllCell
  outer : PromiseState

/-- Delivery of one input settlement to the `Promise.all` closures:
event `(i, .ok v)` runs the fulfillment closure of input `i` (source
lines 233-240), event `(i, .error r)` its rejection closure (lines
241-244).  The dispatch effects emitted by the outer promise's
settlement do not touch the cell or the outer state and are dropped. -/
def allEvent (s : AllRun) : Nat × Except Val Val → AllRun
  | (i, .ok v) =>
    let (cell, res) := allResCore s.cell i v
    match res with
    | some rv => { cell := cell, outer := (resolver s.outer rv).1 }
    | none => { cell := cell, outer := s.outer }
  | (_, .error r) => { cell := allRejCore s.cell, outer := (rejector s.outer r).1 }

/-- Deliver a sequence of input settlements in order. -/
def allEvents (s : AllRun) : List (Nat × Except Val Val) → AllRun
  | [] => s
  | e :: es => allEvents (allEvent s e) es

/-- The joint state right after the producer of `Promise.all` ran on
`n` inputs (source lines 222-225), with the outer promise in the given
state. -/
def allInit (n : Nat) (outer : PromiseState) : AllRun :=
  { cell := { results := [], remaining := (n : Int), status := true, outer := 0 },
    outer := outer }

/-- An argument passed to `then`/`catch` for a handler slot: absent
(`undefined`), provided but not callable, or a function. -/
inductive HandlerArg where
  | absent : HandlerArg
  | notCallable : Val → HandlerArg
  | callable : HandlerFn → HandlerArg

/-- The coercion `typeof h === "function" ? h : null` applied to each
handler argument by `then` (source lines 291-292) and `catch` (line
317). -/
def coerceHandler : HandlerArg → Option HandlerFn
  | .callable f => some f
  | _ => none

/-- The synchronous body of `Promise.prototype.then` (source lines
286-301) with its error channel made explicit: the only throw statement
reachable from it is the constructor's producer-callable check (lines
38-40), and the producer built at line 289 is a function literal, so no
precondition error is ever raised — in particular none for handler
arguments, which are only coerced. -/
def thenE (w : World) (src : PromiseId) (onRes onRej : HandlerArg) :
    Except String (World × PromiseId) :=
  .ok (thenCall w src (coerceHandler onRes) (coerceHandler onRej))

/-- The synchronous body of `Promise.prototype.catch` (source lines
311-326): identical to `then` with `resolve: null`. -/
def catchE (w : World) (src : PromiseId) (onRej : HandlerArg) :
    Except String (World × PromiseId) :=
  .ok (thenCall w src none (coerceHandler onRej))

/-! ### Concrete example worlds used by witnesses and counterexamples -/

/-- One pending promise whose task queue holds a scheduled handler
invocation (source lines 64-70) with a handler that throws `"boom"`. -/
def exThrowW : World :=
  { promises := [{}],
    tasks := [.invokeT (.pureFn (fun _ => .error (.str "boom"))) (.num 5) 0] }

/-- Promise 0 rejected with `"x"`; promise 1 resolved with promise 0 as
its fate (the nested-future quirk). -/
def exQuirkW : World :=
  { promises := [{ status := .rejected, fate := .str "x" },
                 { status := .resolved, fate := .pref 0 }] }

/-- One promise rejected with `"x"` (a plain, non-promise reason). -/
def exRejW : World :=
  { promises := [{ status := .rejected, fate := .str "x" }] }

/-- Two pending promises. -/
def exPendW : World :=
  { promises := [{}, {}] }

/-- Promise 0 resolved with `5`; promise 1 rejected with promise 0 as
its reason. -/
def exAdoptW : World :=
  { promises := [{ status := .resolved, fate := .num 5 },
                 { status := .rejected, fate := .pref 0 }] }

/-- Promise 0 resolved with `1` and promise 1 resolved with `2`. -/
def exTwoResW : World :=
  { promises := [{ status := .resolved, fate := .num 1 },
                 { status := .resolved, fate := .num 2 }] }

/-! ### Auxiliary list lemmas -/

theorem listGetD_set_self {α : Type} : ∀ (l : List α) (i : Nat) (x d : α),
    i < l.length → (l.set i x).getD i d = x
  | _ :: _, 0, _, _, _ => rfl
  | _ :: rest, i + 1, x, d, h =>
    listGetD_set_self rest i x d (Nat.lt_of_succ_lt_succ h)

theorem listGetD_set_ne {α : Type} : ∀ (l : List α) (i j : Nat) (x d : α),
    i ≠ j → (l.set i x).getD j d = l.getD j d
  | [], _, _, _, _, _ => rfl
  | _ :: _, 0, 0, _, _, h => absurd rfl h
  | _ :: _, 0, _ + 1, _, _, _ => rfl
  | _ :: _, _ + 1, 0, _, _, _ => rfl
  | _ :: rest, i + 1, j + 1, x, d, h =>
    listGetD_set_ne rest i j x d (fun hij => h (congrArg Nat.succ hij))

theorem listGetD_append_self {α : Type} : ∀ (l : List α) (x d : α),
    (l ++ [x]).getD l.length d = x
  | [], _, _ => rfl
  | _ :: rest, x, d => listGetD_append_self rest x d

theorem listGetD_append_lt {α : Type} : ∀ (l l' : List α) (i : Nat) (d : α),
    i < l.length → (l ++ l').getD i d = l.getD i d
  | _ :: _, _, 0, _, _ => rfl
  | _ :: rest, l', i + 1, d, h =>
    listGetD_append_lt rest l' i d (Nat.lt_of_succ_lt_succ h)

/-! ### Settlement-core lemmas -/

/-- Each of `envoy`'s three branches dispatches to the link of the given
reaction. -/
theorem envoy_link (f : Val) (args : Reaction) (op : Op) :
    (envoy f args op).link = args.link := by
  cases f <;> cases h : args.handler op <;> simp [envoy, h, Eff.link]

/-- `resolver` is a no-op on an already settled promise: no state
change, no dispatch. -/
theorem resolver_settled (st : PromiseState) (v : Val) (h : st.status ≠ .pending) :
    resolver st v = (st, []) := by
  simp [resolver, h]

/-- `rejector` is a no-op on an already settled promise: no state
change, no dispatch. -/
theorem rejector_settled (st : PromiseState) (v : Val) (h : st.status ≠ .pending) :
    rejector st v = (st, []) := by
  simp [rejector, h]

theorem attachedOf_nil : attachedOf [] = [] := rfl

theorem attachedOf_cons_settle (op : Op) (v : Val) (os : List PromOp) :
    attachedOf (.settle op v :: os) = attachedOf os := rfl

theorem attachedOf_cons_attach (a : Reaction) (os : List PromOp) :
    attachedOf (.attach a :: os) = a :: attachedOf os := rfl

/-- A sequence of settlement calls on an already settled promise does
nothing and dispatches nothing. -/
theorem runP_settles_noop (ops : List PromOp) : ∀ st : PromiseState, st.status ≠ .pending →
    (∀ o ∈ ops, o.isSettle) → runP st ops = (st, []) := by
  induction ops with
  | nil => intro st _ _; rfl
  | cons o os ih =>
    intro st h hall
    cases o with
    | attach a => exact absurd (hall _ (List.mem_cons_self _ _)) (fun hf => hf)
    | settle op v =>
      have hrest : ∀ o ∈ os, o.isSettle := fun o ho => hall o (List.mem_cons_of_mem _ ho)
      cases op <;>
        simp [runP, stepP, resolver_settled st v h, rejector_settled st v h, ih st h hrest]

/-- Any sequence of operations on an already settled promise leaves its
state untouched and dispatches exactly the attached reactions, in
order. -/
theorem runP_settled (ops : List PromOp) : ∀ st : PromiseState, st.status ≠ .pending →
    (runP st ops).1 = st ∧
    (runP st ops).2.map Eff.link = (attachedOf ops).map Reaction.link := by
  induction ops with
  | nil => intro st _; exact ⟨rfl, rfl⟩
  | cons o os ih =>
    intro st h
    cases o with
    | settle op v =>
      cases op <;>
        simpa [runP, stepP, resolver_settled st v h, rejector_settled st v h,
          attachedOf_cons_settle] using ih st h
    | attach args =>
      have hpend : ¬ st.status = .pending := h
      cases hs : st.status with
      | pending => exact absurd hs hpend
      | resolved =>
        have hchain : chain st args = (st, some (envoy st.fate args .resolve)) := by
          simp [chain, hs]
        have := ih st h
        simp [runP, stepP, hchain, attachedOf_cons_attach, envoy_link, this.1, this.2]
      | rejected =>
        have hchain : chain st args = (st, some (envoy st.fate args .reject)) := by
          simp [chain, hs]
        have := ih st h
        simp [runP, stepP, hchain, attachedOf_cons_attach, envoy_link, this.1, this.2]

/-- Trace invariant of a single promise starting pending: while it
stays pending nothing at all is dispatched and the queue holds exactly
the attached reactions in attachment order; once it settles, the
dispatched effects are exactly one per attached reaction, in attachment
order. -/
theorem runP_pending (ops : List PromOp) : ∀ st : PromiseState, st.status = .pending →
    ((runP st ops).1.status = .pending →
      (runP st ops).2 = [] ∧ (runP st ops).1.queue = st.queue ++ attachedOf ops) ∧
    ((runP st ops).1.status ≠ .pending →
      (runP st ops).2.map Eff.link = (st.queue ++ attachedOf ops).map Reaction.link) := by
  induction ops with
  | nil =>
    intro st h
    exact ⟨fun _ => ⟨rfl, by simp [runP, attachedOf_nil]⟩, fun hc => absurd h hc⟩
  | cons o os ih =>
    intro st h
    cases o with
    | attach args =>
      have hchain : chain st args = ({ st with queue := st.queue ++ [args] }, none) := by
        simp [chain, h]
      have hst : ({ st with queue := st.queue ++ [args] } : PromiseState).status = .pending := h
      have := ih { st with queue := st.queue ++ [args] } hst
      constructor
      · intro hp
        have h1 := this.1 (by simpa [runP, stepP, hchain] using hp)
        refine ⟨by simpa [runP, stepP, hchain] using h1.1, ?_⟩
        have h2 := h1.2
        simp only [runP, stepP, hchain, attachedOf_cons_attach]
        simpa [List.append_assoc] using h2
      · intro hp
        have h2 := this.2 (by simpa [runP, stepP, hchain] using hp)
        simp only [runP, stepP, hchain, attachedOf_cons_attach]
        simpa [List.append_assoc] using h2
    | settle op v =>
      cases op with
      | resolve =>
        have hres : resolver st v =
            ({ st with fate := v, status := .resolved },
              enlighten { st with fate := v, status := .resolved } .resolve) := by
          simp [resolver, h]
        have hsettled := runP_settled os { st with fate := v, status := .resolved }
          (by simp)
        constructor
        · intro hp
          have h1 : (runP st (PromOp.settle .resolve v :: os)).1 =
              { st with fate := v, status := .resolved } := by
            simp [runP, stepP, hres, hsettled.1]
          rw [h1] at hp
          exact absurd hp (by simp)
        · intro _
          simp [runP, stepP, hres, hsettled.1, hsettled.2, enlighten,
            attachedOf_cons_settle, List.map_map, Function.comp, envoy_link]
      | reject =>
        have hres : rejector st v =
            ({ st with fate := v, status := .rejected },
              enlighten { st with fate := v, status := .rejected } .reject) := by
          simp [rejector, h]
        have hsettled := runP_settled os { st with fate := v, status := .rejected }
          (by simp)
        constructor
        · intro hp
          have h1 : (runP st (PromOp.settle .reject v :: os)).1 =
              { st with fate := v, status := .rejected } := by
            simp [runP, stepP, hres, hsettled.1]
          rw [h1] at hp
          exact absurd hp (by simp)
        · intro _
          simp [runP, stepP, hres, hsettled.1, hsettled.2, enlighten,
            attachedOf_cons_settle, List.map_map, Function.comp, envoy_link]

/-! ### Claim C1 -/

/-- C1: for every promise and every sequence of calls to its two
settlement functions, only the first call changes the promise: the
whole run equals just the first step (so every subsequent `resolver` or
`rejector` call leaves state and outcome unchanged and dispatches no
reaction), and that first step writes the outcome `v` and makes the
state non-pending (first-settle-wins, source lines 98-104 and
113-119). -/
theorem settlement_first_wins (st : PromiseState) (op : Op) (v : Val) (rest : List PromOp)
    (hp : st.status = .pending) (hr : ∀ o ∈ rest, o.isSettle) :
    runP st (.settle op v :: rest) = stepP st (.settle op v) ∧
    (stepP st (.settle op v)).1.status ≠ .pending ∧
    (stepP st (.settle op v)).1.fate = v ∧
    (stepP st (.settle op v)).1.queue = st.queue := by
  cases op with
  | resolve =>
    have hres : resolver st v =
        ({ st with fate := v, status := .resolved },
          enlighten { st with fate := v, status := .resolved } .resolve) := by
      simp [resolver, hp]
    have hnoop := runP_settles_noop rest { st with fate := v, status := .resolved }
      (by simp) hr
    refine ⟨?_, by simp [stepP, hres], by simp [stepP, hres], by simp [stepP, hres]⟩
    simp [runP, stepP, hres, hnoop]
  | reject =>
    have hres : rejector st v =
        ({ st with fate := v, status := .rejected },
          enlighten { st with fate := v, status := .rejected } .reject) := by
      simp [rejector, hp]
    have hnoop := runP_settles_noop rest { st with fate := v, status := .rejected }
      (by simp) hr
    refine ⟨?_, by simp [stepP, hres], by simp [stepP, hres], by simp [stepP, hres]⟩
    simp [runP, stepP, hres, hnoop]

/-- Witness for C1: a fresh promise resolved with `1` and then rejected
with `"x"`: the run equals the single resolving step, which settles
with outcome `1`. -/
theorem settlement_first_wins_witness :
    runP {} [.settle .resolve (.num 1), .settle .reject (.str "x")] =
      stepP {} (.settle .resolve (.num 1)) ∧
    (stepP ({} : PromiseState) (.settle .resolve (.num 1))).1.status ≠ .pending ∧
    (stepP ({} : PromiseState) (.settle .resolve (.num 1))).1.fate = .num 1 ∧
    (stepP ({} : PromiseState) (.settle .resolve (.num 1))).1.queue = ({} : PromiseState).queue :=
  settlement_first_wins {} .resolve (.num 1) [.settle .reject (.str "x")] rfl
    (by intro o ho; simp only [List.mem_singleton] at ho; subst ho; trivial)

/-! ### Claim C2 -/

/-- C2: over any sequence of settlement calls and `then`/`catch`
attachments on a promise created fresh, (a) while the promise is still
pending nothing whatsoever is dispatched (the reactions are only
buffered, in attachment order); (b) once it is settled, the dispatched
effects are exactly one per attached reaction — those attached while
pending first, in FIFO attachment order, those attached after
settlement each dispatched at their attachment — each effect targeting
that reaction's downstream link; and (c) a `then`/`catch` call itself
never runs a handler: when it returns, its downstream promise is still
pending, every dispatch having been routed through the `setImmediate`
scheduler as an `Eff`/`Task` rather than invoked inline (handlers are
only ever applied by the task interpreter `runTask`). -/
theorem reactions_dispatched_once_fifo_deferred (ops : List PromOp) (w : World)
    (src : PromiseId) (onRes onRej : Option HandlerFn) :
    (((runP {} ops).1.status = .pending →
        (runP {} ops).2 = [] ∧ (runP {} ops).1.queue = attachedOf ops) ∧
      ((runP {} ops).1.status ≠ .pending →
        (runP {} ops).2.map Eff.link = (attachedOf ops).map Reaction.link)) ∧
    ((thenCall w src onRes onRej).1.get (thenCall w src onRes onRej).2).status = .pending := by
  constructor
  · have h := runP_pending ops {} rfl
    exact ⟨fun hp => ⟨(h.1 hp).1, by simpa using (h.1 hp).2⟩, fun hp => by simpa using h.2 hp⟩
  · show (World.get _ w.promises.length).status = .pending
    simp only [World.get, thenCall]
    rw [listGetD_append_self]

/-- Witness for C2: a reaction linked to promise `7` attached while
pending and one linked to `9` attached after settlement are dispatched
exactly once each, in order; `then` on an empty world leaves its
downstream pending. -/
theorem reactions_dispatched_once_fifo_deferred_witness :
    (runP {} [.attach { onResolve := none, onReject := none, link := 7 },
        .settle .resolve (.num 1),
        .attach { onResolve := none, onReject := none, link := 9 }]).2.map Eff.link = [7, 9] ∧
    ((thenCall {} 0 none none).1.get (thenCall {} 0 none none).2).status = .pending := by
  have h := reactions_dispatched_once_fifo_deferred
    [.attach { onResolve := none, onReject := none, link := 7 },
      .settle .resolve (.num 1),
      .attach { onResolve := none, onReject := none, link := 9 }] {} 0 none none
  exact ⟨by rw [h.1.2 (by decide)]; decide, h.2⟩

/-! ### Preservation lemmas for the world interpreter -/

theorem listSet_oob {α : Type} : ∀ (l : List α) (i : Nat) (x : α),
    l.length ≤ i → l.set i x = l
  | [], _, _, _ => rfl
  | _ :: _, 0, _, h => (Nat.not_succ_le_zero _ h).elim
  | a :: rest, i + 1, x, h =>
    congrArg (a :: ·) (listSet_oob rest i x (Nat.le_of_succ_le_succ h))

/-- `chain` never touches a promise's status or fate (it only queues or
dispatches). -/
theorem chain_preserves (st : PromiseState) (args : Reaction) :
    (chain st args).1.status = st.status ∧ (chain st args).1.fate = st.fate := by
  cases h : st.status <;> simp [chain, h]

/-- Writing a state with the same status and fate into the store
preserves every promise's status and fate. -/
theorem get_setP_preserves (w : World) (q : PromiseId) (st' : PromiseState) (p : PromiseId)
    (hs : st'.status = (w.get q).status) (hf : st'.fate = (w.get q).fate) :
    ((w.setP q st').get p).status = (w.get p).status ∧
    ((w.setP q st').get p).fate = (w.get p).fate := by
  by_cases hpq : p = q
  · subst hpq
    by_cases hlt : p < w.promises.length
    · simp only [World.setP, World.get] at *
      rw [listGetD_set_self _ _ _ _ hlt]
      exact ⟨hs, hf⟩
    · simp only [World.setP, World.get] at *
      rw [listSet_oob _ _ _ (Nat.le_of_not_lt hlt)]
      exact ⟨rfl, rfl⟩
  · simp only [World.setP, World.get]
    rw [listGetD_set_ne _ q p _ _ (fun h => hpq h.symm)]
    exact ⟨rfl, rfl⟩

/-- Performing dispatch effects never changes any promise's status or
fate: forwarding only re-attaches the reaction (queue growth), and the
two scheduling effects only append tasks.  Stated jointly for
`applyEff` and `applyEffs`. -/
theorem applyEff_preserves : ∀ fuel : Nat,
    (∀ (w : World) (e : Eff) (p : PromiseId),
      ((applyEff fuel w e).get p).status = (w.get p).status ∧
      ((applyEff fuel w e).get p).fate = (w.get p).fate) ∧
    (∀ (w : World) (es : List Eff) (p : PromiseId),
      ((applyEffs fuel w es).get p).status = (w.get p).status ∧
      ((applyEffs fuel w es).get p).fate = (w.get p).fate) := by
  intro fuel
  induction fuel with
  | zero => exact ⟨fun _ _ _ => ⟨rfl, rfl⟩, fun _ _ _ => ⟨rfl, rfl⟩⟩
  | succ fuel ih =>
    constructor
    · intro w e p
      cases e with
      | schedInvoke h v link => exact ⟨rfl, rfl⟩
      | schedSettle op link v => exact ⟨rfl, rfl⟩
      | forward q args =>
        rcases hch : chain (w.get q) args with ⟨st, eo⟩
        have hc := chain_preserves (w.get q) args
        rw [hch] at hc
        have hset := get_setP_preserves w q st p hc.1 hc.2
        cases eo with
        | none =>
          have heq : applyEff (fuel + 1) w (.forward q args) = w.setP q st := by
            simp only [applyEff, hch]
          rw [heq]
          exact hset
        | some eff =>
          have heq : applyEff (fuel + 1) w (.forward q args) =
              applyEff fuel (w.setP q st) eff := by
            simp only [applyEff, hch]
          rw [heq]
          have hrec := ih.1 (w.setP q st) eff p
          exact ⟨hrec.1.trans hset.1, hrec.2.trans hset.2⟩
    · intro w es p
      cases es with
      | nil => exact ⟨rfl, rfl⟩
      | cons e es =>
        have h1 := ih.1 w e p
        have h2 := ih.2 (applyEff fuel w e) es p
        exact ⟨h2.1.trans h1.1, h2.2.trans h1.2⟩

/-! ### Claim C6 -/

/-- C6 counterexample: calling `then` on a pending promise with the
non-callable handler argument `42` raises no synchronous error at all
(the claim asserts a precondition error is raised): the call returns
normally, and behaves exactly as the same call with the handler absent;
likewise for `catch`.  The source's `then`/`catch` (lines 286-301 and
311-326) contain no handler validation — only the coercion
`typeof h === "function" ? h : null`. -/
theorem then_noncallable_no_error :
    (thenE { promises := [{}] } 0 (.notCallable (.num 42)) .absent).isOk = true ∧
    thenE { promises := [{}] } 0 (.notCallable (.num 42)) .absent =
      thenE { promises := [{}] } 0 .absent .absent ∧
    (catchE { promises := [{}] } 0 (.notCallable (.num 42))).isOk = true ∧
    catchE { promises := [{}] } 0 (.notCallable (.num 42)) =
      catchE { promises := [{}] } 0 .absent :=
  ⟨rfl, rfl, rfl, rfl⟩

/-- C6 amended: a handler argument that is provided but not callable
never raises an error at the `then`/`catch` call; it is coerced to
`null` and the call behaves exactly as if the handler were absent
(pass-through). -/
theorem then_noncallable_coerced_to_absent (w : World) (src : PromiseId) (v : Val)
    (hRej : HandlerArg) :
    thenE w src (.notCallable v) hRej = thenE w src .absent hRej ∧
    (thenE w src (.notCallable v) hRej).isOk = true ∧
    catchE w src (.notCallable v) = catchE w src .absent ∧
    (catchE w src (.notCallable v)).isOk = true :=
  ⟨rfl, rfl, rfl, rfl⟩

/-! ### Claim C7 -/

/-- C7: when a handler throws while being invoked during dispatch (the
scheduled closure of source lines 64-70), the failure is caught and the
downstream promise of the `then`/`catch` call that attached it — the
`link` — is rejected with the thrown value. -/
theorem handler_throw_rejects_downstream (fuel : Nat) (w : World) (f : Val → Except Val Val)
    (v e : Val) (link : PromiseId) (rest : List Task)
    (hf : f v = .error e)
    (hl : link < w.promises.length)
    (hp : (w.get link).status = .pending)
    (ht : w.tasks = .invokeT (.pureFn f) v link :: rest) :
    ((runTask (fuel + 2) w).get link).status = .rejected ∧
    ((runTask (fuel + 2) w).get link).fate = e := by
  have h1 : runTask (fuel + 2) w =
      worldSettle (fuel + 1) { w with tasks := rest } .reject link e := by
    simp only [runTask, ht, applyHandler, hf]
  have hget : (World.get { w with tasks := rest } link) = w.get link := rfl
  have hrej : rejector (World.get { w with tasks := rest } link) e =
      ({ w.get link with fate := e, status := .rejected },
        enlighten { w.get link with fate := e, status := .rejected } .reject) := by
    rw [hget]; simp [rejector, hp]
  have h2 : worldSettle (fuel + 1) { w with tasks := rest } .reject link e =
      applyEffs fuel
        (World.setP { w with tasks := rest } link
          { w.get link with fate := e, status := .rejected })
        (enlighten { w.get link with fate := e, status := .rejected } .reject) := by
    simp only [worldSettle, hrej]
  have hpres := (applyEff_preserves fuel).2
    (World.setP { w with tasks := rest } link
      { w.get link with fate := e, status := .rejected })
    (enlighten { w.get link with fate := e, status := .rejected } .reject) link
  have hself : ((World.setP { w with tasks := rest } link
      { w.get link with fate := e, status := .rejected }).get link) =
      { w.get link with fate := e, status := .rejected } := by
    simp only [World.setP, World.get]
    exact listGetD_set_self _ _ _ _ hl
  rw [h1, h2]
  exact ⟨by rw [hpres.1, hself], by rw [hpres.2, hself]⟩

/-- Witness for C7: a handler that throws `"boom"` on a fulfilled value
`5` leaves the downstream promise rejected with `"boom"`. -/
theorem handler_throw_rejects_downstream_witness :
    ((runTask 2 exThrowW).get 0).status = .rejected ∧
    ((runTask 2 exThrowW).get 0).fate = .str "boom" :=
  handler_throw_rejects_downstream 0 exThrowW
    (fun _ => .error (.str "boom")) (.num 5) (.str "boom") 0 []
    rfl (by decide) rfl rfl

/-! ### Step lemmas for the pass-through and settlement tasks -/

theorem listSet_getD_self {α : Type} : ∀ (l : List α) (i : Nat) (d : α),
    i < l.length → l.set i (l.getD i d) = l
  | _ :: _, 0, _, _ => rfl
  | a :: rest, i + 1, d, h =>
    congrArg (a :: ·) (listSet_getD_self rest i d (Nat.lt_of_succ_lt_succ h))

theorem applyEffs_nil (fuel : Nat) (w : World) : applyEffs fuel w [] = w := by
  cases fuel <;> rfl

/-- `envoy` on a reaction with both handlers absent and a non-promise
fate schedules the direct pass-through of source line 72. -/
theorem envoy_no_handler (fate : Val) (link : PromiseId) (op : Op)
    (hnp : fate.isPref = false) :
    envoy fate { onResolve := none, onReject := none, link := link } op =
      .schedSettle op link fate := by
  cases fate <;> first
    | (cases op <;> rfl)
    | simp [Val.isPref] at hnp

/-- Running a scheduled settlement task on a pending promise settles it
with the task's operation and value. -/
theorem runTask_settle_pending (fuel : Nat) (w : World) (op : Op) (d : PromiseId) (v : Val)
    (rest : List Task)
    (hd : d < w.promises.length)
    (hp : (w.get d).status = .pending)
    (ht : w.tasks = .settleT op d v :: rest) :
    ((runTask (fuel + 2) w).get d).status =
      (match op with | .resolve => Status.resolved | .reject => Status.rejected) ∧
    ((runTask (fuel + 2) w).get d).fate = v := by
  cases op with
  | resolve =>
    have h1 : runTask (fuel + 2) w = worldSettle (fuel + 1) { w with tasks := rest } .resolve d v := by
      simp only [runTask, ht]
    have hres : resolver (World.get { w with tasks := rest } d) v =
        ({ w.get d with fate := v, status := .resolved },
          enlighten { w.get d with fate := v, status := .resolved } .resolve) := by
      show resolver (w.get d) v = _
      simp [resolver, hp]
    have h2 : worldSettle (fuel + 1) { w with tasks := rest } .resolve d v =
        applyEffs fuel
          (World.setP { w with tasks := rest } d { w.get d with fate := v, status := .resolved })
          (enlighten { w.get d with fate := v, status := .resolved } .resolve) := by
      simp only [worldSettle, hres]
    have hpres := (applyEff_preserves fuel).2
      (World.setP { w with tasks := rest } d { w.get d with fate := v, status := .resolved })
      (enlighten { w.get d with fate := v, status := .resolved } .resolve) d
    have hself : ((World.setP { w with tasks := rest } d
        { w.get d with fate := v, status := .resolved }).get d) =
        { w.get d with fate := v, status := .resolved } := by
      simp only [World.setP, World.get]
      exact listGetD_set_self _ _ _ _ hd
    rw [h1, h2]
    exact ⟨by rw [hpres.1, hself], by rw [hpres.2, hself]⟩
  | reject =>
    have h1 : runTask (fuel + 2) w = worldSettle (fuel + 1) { w with tasks := rest } .reject d v := by
      simp only [runTask, ht]
    have hres : rejector (World.get { w with tasks := rest } d) v =
        ({ w.get d with fate := v, status := .rejected },
          enlighten { w.get d with fate := v, status := .rejected } .reject) := by
      show rejector (w.get d) v = _
      simp [rejector, hp]
    have h2 : worldSettle (fuel + 1) { w with tasks := rest } .reject d v =
        applyEffs fuel
          (World.setP { w with tasks := rest } d { w.get d with fate := v, status := .rejected })
          (enlighten { w.get d with fate := v, status := .rejected } .reject) := by
      simp only [worldSettle, hres]
    have hpres := (applyEff_preserves fuel).2
      (World.setP { w with tasks := rest } d { w.get d with fate := v, status := .rejected })
      (enlighten { w.get d with fate := v, status := .rejected } .reject) d
    have hself : ((World.setP { w with tasks := rest } d
        { w.get d with fate := v, status := .rejected }).get d) =
        { w.get d with fate := v, status := .rejected } := by
      simp only [World.setP, World.get]
      exact listGetD_set_self _ _ _ _ hd
    rw [h1, h2]
    exact ⟨by rw [hpres.1, hself], by rw [hpres.2, hself]⟩

/-- Running the producer task of a `then`/`catch` call with both
handlers absent, attached to an already settled source whose fate is
not a promise, schedules the direct pass-through task carrying the
source's own operation and fate. -/
theorem runTask_chain_passthrough (fuel : Nat) (w : World) (src d : PromiseId)
    (rest : List Task) (op : Op)
    (hsrc : src < w.promises.length)
    (hnp : (w.get src).fate.isPref = false)
    (hres : (w.get src).status =
      (match op with | .resolve => Status.resolved | .reject => Status.rejected))
    (ht : w.tasks = .runChainT src { onResolve := none, onReject := none, link := d } :: rest) :
    runTask (fuel + 2) w = { w with tasks := rest ++ [.settleT op d (w.get src).fate] } := by
  have hchain : chain (World.get { w with tasks := rest } src)
      { onResolve := none, onReject := none, link := d } =
      (w.get src, some (.schedSettle op d (w.get src).fate)) := by
    show chain (w.get src) _ = _
    cases op with
    | resolve => simp [chain, hres, envoy_no_handler _ _ _ hnp]
    | reject => simp [chain, hres, envoy_no_handler _ _ _ hnp]
  have h1 : runTask (fuel + 2) w =
      applyEff (fuel + 1) (World.setP { w with tasks := rest } src (w.get src))
        (.schedSettle op d (w.get src).fate) := by
    simp only [runTask, ht, hchain]
  have hset : World.setP { w with tasks := rest } src (w.get src) = { w with tasks := rest } := by
    simp only [World.setP, World.get]
    rw [listSet_getD_self _ _ _ hsrc]
  rw [h1, hset]
  rfl

/-- Running the producer task of a `then`/`catch` call while the source
is still pending only queues the reaction (source line 155): nothing is
dispatched and no promise is settled. -/
theorem runTask_chain_pending (fuel : Nat) (w : World) (src : PromiseId)
    (args : Reaction) (rest : List Task)
    (hpend : (w.get src).status = .pending)
    (ht : w.tasks = .runChainT src args :: rest) :
    runTask (fuel + 2) w =
      World.setP { w with tasks := rest } src
        { w.get src with queue := (w.get src).queue ++ [args] } := by
  have hchain : chain (World.get { w with tasks := rest } src) args =
      ({ w.get src with queue := (w.get src).queue ++ [args] }, none) := by
    show chain (w.get src) args = _
    simp [chain, hpend]
  simp only [runTask, ht, hchain]

/-- Settling (operation `resolve`) a pending promise whose queue holds
exactly one reaction with no handlers, with a non-promise value,
records the outcome and schedules the single direct pass-through task
of source line 72. -/
theorem worldSettle_nohandler_queued_res (fuel : Nat) (w : World) (src d : PromiseId)
    (v : Val)
    (hpend : (w.get src).status = .pending)
    (hq : (w.get src).queue = [{ onResolve := none, onReject := none, link := d }])
    (hvnp : v.isPref = false) :
    worldSettle (fuel + 3) w .resolve src v =
      World.sched (World.setP w src { w.get src with fate := v, status := .resolved })
        (.settleT .resolve d v) := by
  have hres : resolver (w.get src) v =
      ({ w.get src with fate := v, status := .resolved },
        enlighten { w.get src with fate := v, status := .resolved } .resolve) := by
    simp [resolver, hpend]
  have henl : enlighten { w.get src with fate := v, status := .resolved } .resolve =
      [.schedSettle .resolve d v] := by
    simp [enlighten, hq, envoy_no_handler _ _ _ hvnp]
  have h1 : worldSettle (fuel + 3) w .resolve src v =
      applyEffs (fuel + 2)
        (World.setP w src { w.get src with fate := v, status := .resolved })
        [.schedSettle .resolve d v] := by
    simp only [worldSettle, hres, henl]
  rw [h1]
  rfl

/-- Settling (operation `reject`) a pending promise whose queue holds
exactly one reaction with no handlers, with a non-promise reason,
records the outcome and schedules the single direct pass-through task
of source line 72. -/
theorem worldSettle_nohandler_queued_rej (fuel : Nat) (w : World) (src d : PromiseId)
    (v : Val)
    (hpend : (w.get src).status = .pending)
    (hq : (w.get src).queue = [{ onResolve := none, onReject := none, link := d }])
    (hvnp : v.isPref = false) :
    worldSettle (fuel + 3) w .reject src v =
      World.sched (World.setP w src { w.get src with fate := v, status := .rejected })
        (.settleT .reject d v) := by
  have hres : rejector (w.get src) v =
      ({ w.get src with fate := v, status := .rejected },
        enlighten { w.get src with fate := v, status := .rejected } .reject) := by
    simp [rejector, hpend]
  have henl : enlighten { w.get src with fate := v, status := .rejected } .reject =
      [.schedSettle .reject d v] := by
    simp [enlighten, hq, envoy_no_handler _ _ _ hvnp]
  have h1 : worldSettle (fuel + 3) w .reject src v =
      applyEffs (fuel + 2)
        (World.setP w src { w.get src with fate := v, status := .rejected })
        [.schedSettle .reject d v] := by
    simp only [worldSettle, hres, henl]
  rw [h1]
  rfl

/-- Settling a pending promise holding exactly one handlerless queued
reaction with a non-promise value, then running the scheduled
pass-through task, settles both the source and the reaction's
downstream with that same operation and value. -/
theorem settle_then_dispatch_nohandler (fuel : Nat) (w : World) (op : Op)
    (src d : PromiseId) (v : Val)
    (hsd : src ≠ d)
    (hsl : src < w.promises.length)
    (hdl : d < w.promises.length)
    (hpend : (w.get src).status = .pending)
    (hq : (w.get src).queue = [{ onResolve := none, onReject := none, link := d }])
    (hdp : (w.get d).status = .pending)
    (htasks : w.tasks = [])
    (hvnp : v.isPref = false) :
    ((worldSettle (fuel + 3) w op src v).get src).status
      = (match op with | .resolve => Status.resolved | .reject => Status.rejected) ∧
    ((worldSettle (fuel + 3) w op src v).get src).fate = v ∧
    ((runTask (fuel + 2) (worldSettle (fuel + 3) w op src v)).get d).status
      = (match op with | .resolve => Status.resolved | .reject => Status.rejected) ∧
    ((runTask (fuel + 2) (worldSettle (fuel + 3) w op src v)).get d).fate = v := by
  cases op with
  | resolve =>
    have hD := worldSettle_nohandler_queued_res fuel w src d v hpend hq hvnp
    have hg_src : ((World.sched (World.setP w src { w.get src with fate := v, status := .resolved }) (.settleT .resolve d v)).get src) = { w.get src with fate := v, status := .resolved } := by
      simp only [World.sched, World.setP, World.get]
      exact listGetD_set_self _ _ _ _ hsl
    have hg_d : ((World.sched (World.setP w src { w.get src with fate := v, status := .resolved }) (.settleT .resolve d v)).get d) = w.get d := by
      simp only [World.sched, World.setP, World.get]
      exact listGetD_set_ne _ _ _ _ _ hsd
    have hlen3 : d < (World.sched (World.setP w src { w.get src with fate := v, status := .resolved }) (.settleT .resolve d v)).promises.length := by
      simp only [World.sched, World.setP]
      rw [List.length_set]
      exact hdl
    have htask3 : (World.sched (World.setP w src { w.get src with fate := v, status := .resolved }) (.settleT .resolve d v)).tasks = .settleT .resolve d v :: [] := by
      simp only [World.sched, World.setP]
      rw [htasks]
      rfl
    have hE := runTask_settle_pending fuel
      (World.sched (World.setP w src { w.get src with fate := v, status := .resolved }) (.settleT .resolve d v))
      .resolve d v [] hlen3 (by rw [hg_d]; exact hdp) htask3
    exact ⟨by rw [hD, hg_src], by rw [hD, hg_src], by rw [hD]; exact hE.1, by rw [hD]; exact hE.2⟩
  | reject =>
    have hD := worldSettle_nohandler_queued_rej fuel w src d v hpend hq hvnp
    have hg_src : ((World.sched (World.setP w src { w.get src with fate := v, status := .rejected }) (.settleT .reject d v)).get src) = { w.get src with fate := v, status := .rejected } := by
      simp only [World.sched, World.setP, World.get]
      exact listGetD_set_self _ _ _ _ hsl
    have hg_d : ((World.sched (World.setP w src { w.get src with fate := v, status := .rejected }) (.settleT .reject d v)).get d) = w.get d := by
      simp only [World.sched, World.setP, World.get]
      exact listGetD_set_ne _ _ _ _ _ hsd
    have hlen3 : d < (World.sched (World.setP w src { w.get src with fate := v, status := .rejected }) (.settleT .reject d v)).promises.length := by
      simp only [World.sched, World.setP]
      rw [List.length_set]
      exact hdl
    have htask3 : (World.sched (World.setP w src { w.get src with fate := v, status := .rejected }) (.settleT .reject d v)).tasks = .settleT .reject d v :: [] := by
      simp only [World.sched, World.setP]
      rw [htasks]
      rfl
    have hE := runTask_settle_pending fuel
      (World.sched (World.setP w src { w.get src with fate := v, status := .rejected }) (.settleT .reject d v))
      .reject d v [] hlen3 (by rw [hg_d]; exact hdp) htask3
    exact ⟨by rw [hD, hg_src], by rw [hD, hg_src], by rw [hD]; exact hE.1, by rw [hD]; exact hE.2⟩

/-- Pass-through for a reaction attached while the source is pending:
the producer task buffers it, the later settlement dispatches it. -/
theorem then_passthrough_pending (fuel : Nat) (w : World) (src : PromiseId) (op : Op) (v : Val)
    (hsrc : src < w.promises.length)
    (hpend : (w.get src).status = .pending)
    (hq : (w.get src).queue = [])
    (ht : w.tasks = [])
    (hvnp : v.isPref = false) :
    ((runTask (fuel + 2) (thenCall w src none none).1).get (thenCall w src none none).2).status
      = .pending ∧
    ((worldSettle (fuel + 3) (runTask (fuel + 2) (thenCall w src none none).1) op src v).get src).status
      = (match op with | .resolve => Status.resolved | .reject => Status.rejected) ∧
    ((worldSettle (fuel + 3) (runTask (fuel + 2) (thenCall w src none none).1) op src v).get src).fate
      = v ∧
    ((runTask (fuel + 2) (worldSettle (fuel + 3) (runTask (fuel + 2) (thenCall w src none none).1) op src v)).get (thenCall w src none none).2).status
      = (match op with | .resolve => Status.resolved | .reject => Status.rejected) ∧
    ((runTask (fuel + 2) (worldSettle (fuel + 3) (runTask (fuel + 2) (thenCall w src none none).1) op src v)).get (thenCall w src none none).2).fate
      = v := by
  have hW1t : ((thenCall w src none none).1).tasks =
      [.runChainT src { onResolve := none, onReject := none, link := w.promises.length }] := by
    simp [thenCall, ht]
  have hW1p : ((thenCall w src none none).1).promises = w.promises ++ [({} : PromiseState)] := rfl
  have hW1get : ((thenCall w src none none).1).get src = w.get src := by
    simp only [World.get, hW1p]
    exact listGetD_append_lt _ _ _ _ hsrc
  have hsd : src ≠ w.promises.length := Nat.ne_of_lt hsrc
  have hB := runTask_chain_pending fuel ((thenCall w src none none).1) src
    { onResolve := none, onReject := none, link := w.promises.length } []
    (by rw [hW1get]; exact hpend) hW1t
  rw [hW1get, hq] at hB
  simp only [List.nil_append] at hB
  have hXplen : (runTask (fuel + 2) (thenCall w src none none).1).promises.length
      = w.promises.length + 1 := by
    rw [hB]
    simp [World.setP, hW1p]
  have hXsrc : src < (runTask (fuel + 2) (thenCall w src none none).1).promises.length := by
    rw [hXplen]
    exact Nat.lt_succ_of_lt hsrc
  have hXt : (runTask (fuel + 2) (thenCall w src none none).1).tasks = [] := by
    rw [hB]
    rfl
  have hW2get : ((runTask (fuel + 2) (thenCall w src none none).1).get src) =
      { w.get src with queue := [{ onResolve := none, onReject := none, link := w.promises.length }] } := by
    rw [hB]
    simp only [World.setP, World.get]
    refine listGetD_set_self _ _ _ _ ?_
    rw [hW1p, List.length_append]
    exact Nat.lt_of_lt_of_le hsrc (Nat.le_add_right _ _)
  have hW2d : ((runTask (fuel + 2) (thenCall w src none none).1).get w.promises.length)
      = {} := by
    rw [hB]
    simp only [World.setP, World.get]
    rw [listGetD_set_ne _ _ _ _ _ hsd, hW1p]
    exact listGetD_append_self _ _ _
  have hmain := settle_then_dispatch_nohandler fuel
    (runTask (fuel + 2) (thenCall w src none none).1) op src w.promises.length v
    hsd hXsrc (by rw [hXplen]; exact Nat.lt_succ_self _)
    (by rw [hW2get]; exact hpend) (by rw [hW2get]) (by rw [hW2d]) hXt hvnp
  refine ⟨?_, hmain.1, hmain.2.1, hmain.2.2.1, hmain.2.2.2⟩
  show ((runTask (fuel + 2) (thenCall w src none none).1).get w.promises.length).status = .pending
  rw [hW2d]

/-- The downstream promise created by `then`/`catch` starts as a fresh
pending promise. -/
theorem thenCall_get_new (w : World) (src : PromiseId) (a b : Option HandlerFn) :
    ((thenCall w src a b).1.get (thenCall w src a b).2) = {} := by
  simp only [thenCall, World.get]
  exact listGetD_append_self _ _ _

/-! ### Claim C8 -/

/-- C8 counterexample: `then` with no handlers does not always produce
a downstream promise that settles identically to the source.  In
`exQuirkW`, promise 1 is resolved with promise 0 as its fate and
promise 0 is rejected with `"x"`; attaching a handlerless reaction to
promise 1 gives a downstream (promise 2) that ends up rejected with
`"x"` — a different operation and a different value than the source's
(resolved, promise 0) — because dispatch forwards to the nested promise
(source line 62) before the pass-through of line 72 can apply. -/
theorem then_no_handlers_not_identical :
    ((runN 2 30 (thenCall exQuirkW 1 none none).1).get (thenCall exQuirkW 1 none none).2).status
        ≠ (exQuirkW.get 1).status ∧
    ((runN 2 30 (thenCall exQuirkW 1 none none).1).get (thenCall exQuirkW 1 none none).2).fate
        ≠ (exQuirkW.get 1).fate ∧
    ((runN 2 30 (thenCall exQuirkW 1 none none).1).get (thenCall exQuirkW 1 none none).2).status
        = .rejected ∧
    ((runN 2 30 (thenCall exQuirkW 1 none none).1).get (thenCall exQuirkW 1 none none).2).fate
        = .str "x" ∧
    (exQuirkW.get 1).status = .resolved ∧ (exQuirkW.get 1).fate = .pref 0 := by
  refine ⟨?_, ?_, ?_, ?_, ?_, ?_⟩ <;> decide

/-- Pass-through for a reaction attached after the source settled:
dispatch happens at the attachment (source lines 157-162). -/
theorem then_passthrough_settled (fuel : Nat) (w : World) (src : PromiseId)
    (hsrc : src < w.promises.length)
    (hs : (w.get src).status ≠ .pending)
    (hnp : (w.get src).fate.isPref = false)
    (ht : w.tasks = []) :
    ((runN 2 (fuel + 2) (thenCall w src none none).1).get (thenCall w src none none).2).status
      = (w.get src).status ∧
    ((runN 2 (fuel + 2) (thenCall w src none none).1).get (thenCall w src none none).2).fate
      = (w.get src).fate := by
  have hW1t : ((thenCall w src none none).1).tasks =
      [.runChainT src { onResolve := none, onReject := none, link := w.promises.length }] := by
    simp [thenCall, ht]
  have hW1p : ((thenCall w src none none).1).promises = w.promises ++ [({} : PromiseState)] := rfl
  have hW1get : ((thenCall w src none none).1).get src = w.get src := by
    simp only [World.get, hW1p]
    exact listGetD_append_lt _ _ _ _ hsrc
  have hlen : src < ((thenCall w src none none).1).promises.length := by
    rw [hW1p, List.length_append]
    exact Nat.lt_of_lt_of_le hsrc (Nat.le_add_right _ _)
  have hrun : runN 2 (fuel + 2) ((thenCall w src none none).1) =
      runTask (fuel + 2) (runTask (fuel + 2) ((thenCall w src none none).1)) := rfl
  have hnew : ((thenCall w src none none).1.get (thenCall w src none none).2) = {} :=
    thenCall_get_new w src none none
  cases hst : (w.get src).status with
  | pending => exact absurd hst hs
  | resolved =>
    have hstep1 := runTask_chain_passthrough fuel ((thenCall w src none none).1) src
      w.promises.length [] .resolve hlen
      (by rw [hW1get]; exact hnp) (by rw [hW1get, hst]) hW1t
    rw [hW1get] at hstep1
    have hstep2 := runTask_settle_pending fuel
      (runTask (fuel + 2) ((thenCall w src none none).1)) .resolve
      w.promises.length (w.get src).fate []
      (by rw [hstep1]; show w.promises.length < ((thenCall w src none none).1).promises.length
          rw [hW1p, List.length_append]; exact Nat.lt_succ_self _)
      (by rw [hstep1]
          show (((thenCall w src none none).1).get (thenCall w src none none).2).status = .pending
          rw [hnew])
      (by rw [hstep1]; rfl)
    rw [hrun]
    exact hstep2
  | rejected =>
    have hstep1 := runTask_chain_passthrough fuel ((thenCall w src none none).1) src
      w.promises.length [] .reject hlen
      (by rw [hW1get]; exact hnp) (by rw [hW1get, hst]) hW1t
    rw [hW1get] at hstep1
    have hstep2 := runTask_settle_pending fuel
      (runTask (fuel + 2) ((thenCall w src none none).1)) .reject
      w.promises.length (w.get src).fate []
      (by rw [hstep1]; show w.promises.length < ((thenCall w src none none).1).promises.length
          rw [hW1p, List.length_append]; exact Nat.lt_succ_self _)
      (by rw [hstep1]
          show (((thenCall w src none none).1).get (thenCall w src none none).2).status = .pending
          rw [hnew])
      (by rw [hstep1]; rfl)
    rw [hrun]
    exact hstep2

/-- C8 amended: `then` with no handlers produces a downstream promise
that settles identically to the source whenever the source's outcome is
not itself a promise — the same outcome value under the same operation
(a missing `onRejected` does not convert a rejection into a
fulfillment).  Part 1: the reaction is attached after the source has
settled (dispatch at attachment, source lines 157-162).  Part 2: the
reaction is attached while the source is still pending — the downstream
is still pending right after the attachment step — and is dispatched
when the source later settles with a non-promise value under either
operation: the source records exactly (operation, value) and the
downstream then settles with that same operation and value.  Only
outcomes that are themselves promises are excluded, as the
counterexample forces: for those, dispatch forwards (source line 61)
and the downstream adopts the inner promise's outcome instead. -/
theorem then_no_handlers_passthrough :
    (∀ (fuel : Nat) (w : World) (src : PromiseId),
      src < w.promises.length →
      (w.get src).status ≠ .pending →
      (w.get src).fate.isPref = false →
      w.tasks = [] →
      ((runN 2 (fuel + 2) (thenCall w src none none).1).get (thenCall w src none none).2).status
        = (w.get src).status ∧
      ((runN 2 (fuel + 2) (thenCall w src none none).1).get (thenCall w src none none).2).fate
        = (w.get src).fate) ∧
    (∀ (fuel : Nat) (w : World) (src : PromiseId) (op : Op) (v : Val),
      src < w.promises.length →
      (w.get src).status = .pending →
      (w.get src).queue = [] →
      w.tasks = [] →
      v.isPref = false →
      ((runTask (fuel + 2) (thenCall w src none none).1).get (thenCall w src none none).2).status
        = .pending ∧
      ((worldSettle (fuel + 3) (runTask (fuel + 2) (thenCall w src none none).1) op src v).get src).status
        = (match op with | .resolve => Status.resolved | .reject => Status.rejected) ∧
      ((worldSettle (fuel + 3) (runTask (fuel + 2) (thenCall w src none none).1) op src v).get src).fate
        = v ∧
      ((runTask (fuel + 2) (worldSettle (fuel + 3) (runTask (fuel + 2) (thenCall w src none none).1) op src v)).get (thenCall w src none none).2).status
        = (match op with | .resolve => Status.resolved | .reject => Status.rejected) ∧
      ((runTask (fuel + 2) (worldSettle (fuel + 3) (runTask (fuel + 2) (thenCall w src none none).1) op src v)).get (thenCall w src none none).2).fate
        = v) := by
  constructor
  · intro fuel w src hsrc hs hnp ht
    exact then_passthrough_settled fuel w src hsrc hs hnp ht
  · intro fuel w src op v hsrc hpend hq ht hvnp
    exact then_passthrough_pending fuel w src op v hsrc hpend hq ht hvnp

/-- Witness for C8 (amended), exercising both parts: attached after
settlement, `then` with no handlers on a promise rejected with the
plain value `"x"` gives a downstream also rejected with `"x"`; attached
while pending, the downstream is still pending right after attachment
and, once the source is rejected with `7`, the downstream is rejected
with `7` — the missing `onRejected` does not convert the rejection. -/
theorem then_no_handlers_passthrough_witness :
    (((runN 2 2 (thenCall exRejW 0 none none).1).get (thenCall exRejW 0 none none).2).status
        = (exRejW.get 0).status ∧
      ((runN 2 2 (thenCall exRejW 0 none none).1).get (thenCall exRejW 0 none none).2).fate
        = (exRejW.get 0).fate) ∧
    ((runTask 2 (thenCall exPendW 0 none none).1).get (thenCall exPendW 0 none none).2).status
      = .pending ∧
    ((runTask 2 (worldSettle 3 (runTask 2 (thenCall exPendW 0 none none).1) .reject 0 (.num 7))).get (thenCall exPendW 0 none none).2).status
      = .rejected ∧
    ((runTask 2 (worldSettle 3 (runTask 2 (thenCall exPendW 0 none none).1) .reject 0 (.num 7))).get (thenCall exPendW 0 none none).2).fate
      = .num 7 := by
  have h1 := then_no_handlers_passthrough.1 0 exRejW 0 (by decide) (by decide) (by decide) rfl
  have h2 := then_no_handlers_passthrough.2 0 exPendW 0 .reject (.num 7)
    (by decide) (by decide) rfl rfl (by decide)
  exact ⟨h1, h2.1, h2.2.2.2.1, h2.2.2.2.2⟩

/-- Settling a pending promise through `worldSettle` records the value
and the operation's terminal status. -/
theorem worldSettle_pending (fuel : Nat) (w : World) (op : Op) (d : PromiseId) (v : Val)
    (hd : d < w.promises.length)
    (hp : (w.get d).status = .pending) :
    ((worldSettle (fuel + 1) w op d v).get d).status =
      (match op with | .resolve => Status.resolved | .reject => Status.rejected) ∧
    ((worldSettle (fuel + 1) w op d v).get d).fate = v := by
  cases op with
  | resolve =>
    have hres : resolver (w.get d) v =
        ({ w.get d with fate := v, status := .resolved },
          enlighten { w.get d with fate := v, status := .resolved } .resolve) := by
      simp [resolver, hp]
    have h2 : worldSettle (fuel + 1) w .resolve d v =
        applyEffs fuel (w.setP d { w.get d with fate := v, status := .resolved })
          (enlighten { w.get d with fate := v, status := .resolved } .resolve) := by
      simp only [worldSettle, hres]
    have hpres := (applyEff_preserves fuel).2
      (w.setP d { w.get d with fate := v, status := .resolved })
      (enlighten { w.get d with fate := v, status := .resolved } .resolve) d
    have hself : ((w.setP d { w.get d with fate := v, status := .resolved }).get d) =
        { w.get d with fate := v, status := .resolved } := by
      simp only [World.setP, World.get]
      exact listGetD_set_self _ _ _ _ hd
    rw [h2]
    exact ⟨by rw [hpres.1, hself], by rw [hpres.2, hself]⟩
  | reject =>
    have hres : rejector (w.get d) v =
        ({ w.get d with fate := v, status := .rejected },
          enlighten { w.get d with fate := v, status := .rejected } .reject) := by
      simp [rejector, hp]
    have h2 : worldSettle (fuel + 1) w .reject d v =
        applyEffs fuel (w.setP d { w.get d with fate := v, status := .rejected })
          (enlighten { w.get d with fate := v, status := .rejected } .reject) := by
      simp only [worldSettle, hres]
    have hpres := (applyEff_preserves fuel).2
      (w.setP d { w.get d with fate := v, status := .rejected })
      (enlighten { w.get d with fate := v, status := .rejected } .reject) d
    have hself : ((w.setP d { w.get d with fate := v, status := .rejected }).get d) =
        { w.get d with fate := v, status := .rejected } := by
      simp only [World.setP, World.get]
      exact listGetD_set_self _ _ _ _ hd
    rw [h2]
    exact ⟨by rw [hpres.1, hself], by rw [hpres.2, hself]⟩

/-- Settling one promise never changes the status or fate of any other
promise. -/
theorem worldSettle_preserves_other (fuel : Nat) (w : World) (op : Op) (d : PromiseId)
    (v : Val) (q : PromiseId) (hne : q ≠ d) :
    ((worldSettle (fuel + 1) w op d v).get q).status = (w.get q).status ∧
    ((worldSettle (fuel + 1) w op d v).get q).fate = (w.get q).fate := by
  cases op with
  | resolve =>
    rcases hres : resolver (w.get d) v with ⟨st, effs⟩
    have h2 : worldSettle (fuel + 1) w .resolve d v = applyEffs fuel (w.setP d st) effs := by
      simp only [worldSettle, hres]
    have hpres := (applyEff_preserves fuel).2 (w.setP d st) effs q
    have hne2 : (w.setP d st).get q = w.get q := by
      simp only [World.setP, World.get]
      exact listGetD_set_ne _ _ _ _ _ (fun h => hne h.symm)
    rw [h2]
    exact ⟨by rw [hpres.1, hne2], by rw [hpres.2, hne2]⟩
  | reject =>
    rcases hres : rejector (w.get d) v with ⟨st, effs⟩
    have h2 : worldSettle (fuel + 1) w .reject d v = applyEffs fuel (w.setP d st) effs := by
      simp only [worldSettle, hres]
    have hpres := (applyEff_preserves fuel).2 (w.setP d st) effs q
    have hne2 : (w.setP d st).get q = w.get q := by
      simp only [World.setP, World.get]
      exact listGetD_set_ne _ _ _ _ _ (fun h => hne h.symm)
    rw [h2]
    exact ⟨by rw [hpres.1, hne2], by rw [hpres.2, hne2]⟩

/-! ### Claim C9 -/

/-- C9: resolving a pending promise with a value that is itself a
promise stores that promise directly as the outcome and flips the state
to resolved immediately — even while the inner promise is still
pending — and dispatch only forwards reactions to the inner promise
(`envoy`'s first branch, source lines 61-62), so the downstream promise
of each reaction adopts the inner promise's eventual outcome: in
`exQuirkW`, a `then` on the outer promise (resolved with inner promise
0, which is rejected with `"x"`) yields a downstream promise rejected
with `"x"`. -/
theorem nested_future_resolved_immediately (fuel : Nat) (w : World) (p q : PromiseId)
    (hp : p < w.promises.length)
    (hpend : (w.get p).status = .pending)
    (hqpend : (w.get q).status = .pending)
    (hne : q ≠ p) :
    ((worldSettle (fuel + 1) w .resolve p (.pref q)).get p).status = .resolved ∧
    ((worldSettle (fuel + 1) w .resolve p (.pref q)).get p).fate = .pref q ∧
    ((worldSettle (fuel + 1) w .resolve p (.pref q)).get q).status = .pending ∧
    (∀ (args : Reaction) (op : Op), envoy (.pref q) args op = .forward q args) ∧
    ((runN 2 30 (thenCall exQuirkW 1 (some (.pureFn fun v => .ok v)) none).1).get
        (thenCall exQuirkW 1 (some (.pureFn fun v => .ok v)) none).2).status = .rejected ∧
    ((runN 2 30 (thenCall exQuirkW 1 (some (.pureFn fun v => .ok v)) none).1).get
        (thenCall exQuirkW 1 (some (.pureFn fun v => .ok v)) none).2).fate = .str "x" := by
  have h1 := worldSettle_pending fuel w .resolve p (.pref q) hp hpend
  have h2 := worldSettle_preserves_other fuel w .resolve p (.pref q) q hne
  refine ⟨h1.1, h1.2, by rw [h2.1, hqpend], fun args op => rfl, ?_, ?_⟩ <;> decide

/-- Witness for C9: resolving pending promise 0 of `exPendW` with
still-pending promise 1 resolves promise 0 at once — promise 1 remains
pending. -/
theorem nested_future_resolved_immediately_witness :
    ((worldSettle 1 exPendW .resolve 0 (.pref 1)).get 0).status = .resolved ∧
    ((worldSettle 1 exPendW .resolve 0 (.pref 1)).get 0).fate = .pref 1 ∧
    ((worldSettle 1 exPendW .resolve 0 (.pref 1)).get 1).status = .pending := by
  have h := nested_future_resolved_immediately 0 exPendW 0 1
    (by decide) (by decide) (by decide) (by decide)
  exact ⟨h.1, h.2.1, h.2.2.1⟩

/-! ### Claim C10 -/

/-- C10: rejecting a pending promise with a reason that is itself a
promise stores it as the fate and marks the promise rejected; dispatch
(`envoy`) checks only `fate instanceof Promise`, ignoring the
operation, so every reaction is forwarded to the inner promise instead
of invoking the rejection handler with the promise-valued reason — and
the downstream adopts the inner promise's outcome, so the rejection can
even become a fulfillment: in `exAdoptW` (promise 1 rejected with
promise 0 as reason, promise 0 resolved with `5`), a `then` whose
rejection handler would return `"handler"` yields a downstream promise
resolved with `5` — the rejection handler is never invoked. -/
theorem promise_reason_forwarded (fuel : Nat) (w : World) (p q : PromiseId)
    (hp : p < w.promises.length)
    (hpend : (w.get p).status = .pending) :
    ((worldSettle (fuel + 1) w .reject p (.pref q)).get p).status = .rejected ∧
    ((worldSettle (fuel + 1) w .reject p (.pref q)).get p).fate = .pref q ∧
    (∀ (args : Reaction) (op : Op), envoy (.pref q) args op = .forward q args) ∧
    ((runN 2 30 (thenCall exAdoptW 1 (some (.pureFn fun v => .ok v))
        (some (.pureFn fun _ => .ok (.str "handler")))).1).get
        (thenCall exAdoptW 1 (some (.pureFn fun v => .ok v))
          (some (.pureFn fun _ => .ok (.str "handler")))).2).status = .resolved ∧
    ((runN 2 30 (thenCall exAdoptW 1 (some (.pureFn fun v => .ok v))
        (some (.pureFn fun _ => .ok (.str "handler")))).1).get
        (thenCall exAdoptW 1 (some (.pureFn fun v => .ok v))
          (some (.pureFn fun _ => .ok (.str "handler")))).2).fate = .num 5 := by
  have h1 := worldSettle_pending fuel w .reject p (.pref q) hp hpend
  refine ⟨h1.1, h1.2, fun args op => rfl, ?_, ?_⟩ <;> decide

/-- Witness for C10: rejecting pending promise 0 of `exPendW` with
promise 1 as the reason marks it rejected with that promise stored as
fate. -/
theorem promise_reason_forwarded_witness :
    ((worldSettle 1 exPendW .reject 0 (.pref 1)).get 0).status = .rejected ∧
    ((worldSettle 1 exPendW .reject 0 (.pref 1)).get 0).fate = .pref 1 := by
  have h := promise_reason_forwarded 0 exPendW 0 1 (by decide) (by decide)
  exact ⟨h.1, h.2.1⟩

/-! ### Scheduler fixpoint lemmas -/

/-- With an empty task queue the scheduler does nothing. -/
theorem runTask_no_tasks (fuel : Nat) (w : World) (h : w.tasks = []) :
    runTask fuel w = w := by
  cases fuel with
  | zero => rfl
  | succ fuel => simp only [runTask, h]

/-- With an empty task queue any number of scheduler steps does
nothing. -/
theorem runN_no_tasks (k fuel : Nat) (w : World) (h : w.tasks = []) :
    runN k fuel w = w := by
  induction k with
  | zero => rfl
  | succ k ih => simp only [runN, runTask_no_tasks fuel w h, ih]

/-! ### Claim C3 -/

/-- C3 (code bug in the source): `Promise.all([])` never fulfills.  Its
producer sets `remaining = 0` but `onResolved` is only ever called from
an input's fulfillment closure (source lines 237-239), and an empty
iterable attaches none — so after the producer task runs, the task
queue is empty and the combinator promise stays pending forever (any
number of further scheduler steps leaves it pending), instead of
fulfilling immediately with an empty sequence as the claim (and the
source's own documentation at lines 208-212 together with the README's
promise of mirroring the native API) requires. -/
theorem all_empty_never_settles :
    (runTask 30 (promiseAllCall {} []).1).tasks = [] ∧
    (∀ k : Nat, ((runN k 30 (runTask 30 (promiseAllCall {} []).1)).get
        (promiseAllCall {} []).2).status = .pending) := by
  refine ⟨rfl, fun k => ?_⟩
  rw [runN_no_tasks k 30 _ rfl]
  rfl

/-! ### Claim C4 -/

/-- C4 (code bug in the source): the coercion guard of `Promise.all` is
inverted (line 228 reads `typeof value.then !== "function"` where its
own documentation, lines 208-212, promises conversion of non-promises
through `Promise.resolve`).  A truthy non-thenable element such as `1`
is kept raw, `promise.then` throws, and the combinator promise is
rejected with the `TypeError` instead of fulfilling: `Promise.all([1])`
rejects.  For promise-valued inputs (which take the `Promise.resolve`
path) the rest of the claim does hold: `Promise.all` of two promises
fulfilled with `1` and `2` fulfills with the sequence `[1, 2]` in input
order. -/
theorem all_raw_nonthenable_rejects :
    ((runN 2 30 (promiseAllCall {} [.num 1]).1).get (promiseAllCall {} [.num 1]).2).status
      = .rejected ∧
    ((runN 2 30 (promiseAllCall {} [.num 1]).1).get (promiseAllCall {} [.num 1]).2).fate
      = .exn "promise.then is not a function" ∧
    ((runN 20 50 (promiseAllCall exTwoResW [.pref 0, .pref 1]).1).get
        (promiseAllCall exTwoResW [.pref 0, .pref 1]).2).status = .resolved ∧
    ((runN 20 50 (promiseAllCall exTwoResW [.pref 0, .pref 1]).1).get
        (promiseAllCall exTwoResW [.pref 0, .pref 1]).2).fate = .arr [.num 1, .num 2] := by
  refine ⟨?_, ?_, ?_, ?_⟩ <;> decide

/-! ### Claim C5 -/

/-- C5 counterexample: an input list containing a truthy non-thenable
(`1`) ahead of a promise rejected with `"x"` makes `Promise.all` reject
with the `TypeError` thrown by the inverted coercion guard (line 228) —
not with the first input's rejection reason `"x"` as the claim states:
the loop throws at element `1` before the rejecting input is even
attached. -/
theorem all_first_rejection_not_reported :
    ((runN 2 30 (promiseAllCall exRejW [.num 1, .pref 0]).1).get
        (promiseAllCall exRejW [.num 1, .pref 0]).2).status = .rejected ∧
    ((runN 2 30 (promiseAllCall exRejW [.num 1, .pref 0]).1).get
        (promiseAllCall exRejW [.num 1, .pref 0]).2).fate
      = .exn "promise.then is not a function" ∧
    ((runN 2 30 (promiseAllCall exRejW [.num 1, .pref 0]).1).get
        (promiseAllCall exRejW [.num 1, .pref 0]).2).fate ≠ .str "x" ∧
    (exRejW.get 0).status = .rejected ∧ (exRejW.get 0).fate = .str "x" := by
  refine ⟨?_, ?_, ?_, ?_, ?_⟩ <;> decide

theorem allEvents_append (l1 l2 : List (Nat × Except Val Val)) :
    ∀ s : AllRun, allEvents s (l1 ++ l2) = allEvents (allEvents s l1) l2 := by
  induction l1 with
  | nil => intro s; rfl
  | cons e l1 ih =>
    intro s
    rw [List.cons_append]
    show allEvents (allEvent s e) (l1 ++ l2) = _
    exact ih (allEvent s e)

/-- Delivering only fulfillments, fewer than `remaining`, keeps the
cell live, decrements the countdown by one per event, and leaves the
outer promise untouched. -/
theorem allEvents_ok_only : ∀ (pre : List (Nat × Except Val Val)) (s : AllRun),
    s.cell.status = true →
    (∀ e ∈ pre, ∃ v, e.2 = Except.ok v) →
    ((pre.length : Int) < s.cell.remaining) →
    (allEvents s pre).cell.status = true ∧
    (allEvents s pre).cell.remaining = s.cell.remaining - pre.length ∧
    (allEvents s pre).outer = s.outer := by
  intro pre
  induction pre with
  | nil => intro s hs _ _; exact ⟨hs, by simp [allEvents], rfl⟩
  | cons e pre ih =>
    intro s hs hok hrem
    rcases hok e (List.mem_cons_self _ _) with ⟨v, hv⟩
    rcases e with ⟨i, ev⟩
    simp only at hv
    subst hv
    have hcore : allResCore s.cell i v =
        ({ s.cell with results := arraySet s.cell.results i v, remaining := s.cell.remaining - 1 }, none) := by
      have hne : ¬ (s.cell.remaining - 1 = 0) := by
        simp only [List.length_cons] at hrem
        omega
      simp [allResCore, hs, hne]
    have hstep : allEvent s (i, Except.ok v) =
        { cell := { s.cell with results := arraySet s.cell.results i v, remaining := s.cell.remaining - 1 }, outer := s.outer } := by
      simp only [allEvent, hcore]
    have hih := ih { cell := { s.cell with results := arraySet s.cell.results i v, remaining := s.cell.remaining - 1 }, outer := s.outer }
      hs (fun e he => hok e (List.mem_cons_of_mem _ he))
      (by simp only [List.length_cons] at hrem; simp; omega)
    refine ⟨?_, ?_, ?_⟩
    · simpa only [allEvents, hstep] using hih.1
    · have := hih.2.1
      simp only [allEvents, hstep]
      rw [this]
      simp only [List.length_cons]
      push_cast
      ring
    · simpa only [allEvents, hstep] using hih.2.2

/-- Once the cell's flag is cleared and the outer promise settled, no
further event changes the outer promise. -/
theorem allEvents_after_rejection : ∀ (post : List (Nat × Except Val Val)) (s : AllRun),
    s.cell.status = false → s.outer.status ≠ .pending →
    (allEvents s post).outer = s.outer := by
  intro post
  induction post with
  | nil => intro s _ _; rfl
  | cons e post ih =>
    intro s hs ho
    rcases e with ⟨i, ev⟩
    cases ev with
    | ok v =>
      have hcore : allResCore s.cell i v = (s.cell, none) := by
        simp [allResCore, hs]
      have hstep : allEvent s (i, Except.ok v) = { cell := s.cell, outer := s.outer } := by
        simp only [allEvent, hcore]
      simp only [allEvents, hstep]
      exact ih { cell := s.cell, outer := s.outer } hs ho
    | error r =>
      have hrej : rejector s.outer r = (s.outer, []) := rejector_settled s.outer r ho
      have hstep : allEvent s (i, Except.error r) =
          { cell := allRejCore s.cell, outer := s.outer } := by
        simp only [allEvent, hrej]
      simp only [allEvents, hstep]
      exact ih { cell := allRejCore s.cell, outer := s.outer } rfl ho

/-- A duplicate-free list of naturals below `n` has at most `n`
elements. -/
theorem nodup_lt_length_le (l : List Nat) (n : Nat) (hnd : l.Nodup)
    (hlt : ∀ x ∈ l, x < n) : l.length ≤ n := by
  have h1 : l.toFinset.card = l.length := List.toFinset_card_of_nodup hnd
  have h2 : l.toFinset ⊆ Finset.range n := by
    intro x hx
    rw [Finset.mem_range]
    exact hlt x (List.mem_toFinset.mp hx)
  calc l.length = l.toFinset.card := h1.symm
    _ ≤ (Finset.range n).card := Finset.card_le_card h2
    _ = n := Finset.card_range n

/-- C5 amended: for `n` coercible inputs (each delivering at most one
settlement, with its position as index — the indexes of the delivered
events are distinct and below `n`), if at least one input rejects, the
`Promise.all` state machine leaves the combinator promise rejected with
the reason of the first rejection delivered; the settlements delivered
after it — fulfillments or rejections — have no effect on the
combinator's outcome. -/
theorem all_first_rejection_wins (n : Nat) (outer : PromiseState)
    (events pre post : List (Nat × Except Val Val)) (j : Nat) (r : Val)
    (houter : outer.status = .pending)
    (hsplit : events = pre ++ (j, Except.error r) :: post)
    (hpre : ∀ e ∈ pre, ∃ v, e.2 = Except.ok v)
    (hnodup : (events.map Prod.fst).Nodup)
    (hlt : ∀ e ∈ events, e.1 < n) :
    (allEvents (allInit n outer) events).outer.status = .rejected ∧
    (allEvents (allInit n outer) events).outer.fate = r := by
  subst hsplit
  have hmapeq : ((pre ++ (j, Except.error r) :: post).map Prod.fst) =
      pre.map Prod.fst ++ j :: post.map Prod.fst := by
    simp
  rw [hmapeq] at hnodup
  rcases List.nodup_append.mp hnodup with ⟨hnd1, hnd2, hdisj⟩
  have hjnot : j ∉ pre.map Prod.fst := fun hj =>
    hdisj hj (List.mem_cons_self _ _)
  have hlen : pre.length + 1 ≤ n := by
    have happ : (pre.map Prod.fst ++ [j]).Nodup := by
      rw [List.nodup_append]
      refine ⟨hnd1, List.nodup_singleton j, ?_⟩
      intro a ha hb
      rw [List.mem_singleton] at hb
      subst hb
      exact hjnot ha
    have hbelow : ∀ x ∈ pre.map Prod.fst ++ [j], x < n := by
      intro x hx
      rcases List.mem_append.mp hx with hx | hx
      · rcases List.mem_map.mp hx with ⟨e, he, hex⟩
        subst hex
        exact hlt e (List.mem_append_left _ he)
      · rw [List.mem_singleton] at hx
        subst hx
        exact hlt _ (List.mem_append_right _ (List.mem_cons_self _ _))
    have := nodup_lt_length_le _ n happ hbelow
    simpa using this
  have hpres := allEvents_ok_only pre (allInit n outer) rfl hpre
    (by show (pre.length : Int) < (n : Int); omega)
  rw [allEvents_append]
  have hs1out : (allEvents (allInit n outer) pre).outer = outer := hpres.2.2
  have hrej : rejector (allEvents (allInit n outer) pre).outer r =
      ({ outer with fate := r, status := .rejected },
        enlighten { outer with fate := r, status := .rejected } .reject) := by
    rw [hs1out]
    simp [rejector, houter]
  have hstep : allEvent (allEvents (allInit n outer) pre) (j, Except.error r) =
      { cell := allRejCore (allEvents (allInit n outer) pre).cell,
        outer := { outer with fate := r, status := .rejected } } := by
    simp only [allEvent, hrej]
  show (allEvents (allEvents (allInit n outer) pre) ((j, Except.error r) :: post)).outer.status
      = _ ∧ _
  simp only [allEvents, hstep]
  rw [allEvents_after_rejection post _ rfl (by simp)]
  exact ⟨rfl, rfl⟩

/-- Witness for C5 (amended): three inputs delivering fulfillment `1`,
rejection `"x"`, fulfillment `3` in that order leave the combinator
promise rejected with `"x"` — the third input's fulfillment has no
effect. -/
theorem all_first_rejection_wins_witness :
    (allEvents (allInit 3 {}) [(0, Except.ok (.num 1)), (1, Except.error (.str "x")),
      (2, Except.ok (.num 3))]).outer.status = .rejected ∧
    (allEvents (allInit 3 {}) [(0, Except.ok (.num 1)), (1, Except.error (.str "x")),
      (2, Except.ok (.num 3))]).outer.fate = .str "x" :=
  all_first_rejection_wins 3 {} _ [(0, Except.ok (.num 1))] [(2, Except.ok (.num 3))]
    1 (.str "x") rfl rfl
    (by intro e he; rw [List.mem_singleton] at he; subst he; exact ⟨.num 1, rfl⟩)
    (by decide) (by decide)

end PromiseJS
